import Mathlib

/-!
Shallow embedding of the kedge k8s resolver watcher core
(`pkg/resolvers/k8s/watcher.go`), and proofs of the spec's claims
about it.  Go maps with `struct{}` values are modelled as duplicate-free
`List String` built by insert-if-absent; the `select` between context
cancellation and the watch channel is modelled by an explicit
`SelectOutcome` input to `next`.
-/

namespace K8sResolver

/-- Modelled from the spec: the TargetPort specification supplied at watcher
creation is one of unset (`noTargetPort`), named (match by port name) or
numeric-literal; the `targetPort` type's declaration lives outside `src/`,
only its use sites (`t.port == noTargetPort`, `t.port.isNamed`,
`t.port.value`) are in `watcher.go`. -/
inductive TargetPort
  | noTargetPort
  | named (value : String)
  | numeric (value : String)
  deriving DecidableEq, Repr

/-- Modelled from the spec: construction inputs carry the target service
identity and the TargetPort specification; the watcher core consults only
the port field. -/
structure targetEntry where
  port : TargetPort
  deriving DecidableEq, Repr

/-- `port` struct of watcher.go (JSON `name`/`port`). -/
structure port where
  Name : String
  Port : Int
  deriving DecidableEq, Repr

/-- `address` struct of watcher.go (JSON `ip`). -/
structure address where
  IP : String
  deriving DecidableEq, Repr

/-- `subset` struct of watcher.go. -/
structure subset where
  Addresses : List address
  Ports : List port
  deriving DecidableEq, Repr

/-- `metadata` struct of watcher.go. -/
structure metadata where
  Name : String
  ResourceVersion : String
  deriving DecidableEq, Repr

/-- `endpoints` struct of watcher.go. -/
structure endpoints where
  Kind : String
  APIVersion : String
  Metadata : metadata
  Subsets : List subset
  Status : String
  Message : String
  Code : Int
  deriving DecidableEq, Repr

/-- Modelled from the spec: a decoded ChangeEvent carries the full endpoints
object; the `event` type's declaration lives outside `src/`, `watcher.go`
reads only `event.Object.Subsets`. -/
structure event where
  Object : endpoints
  deriving DecidableEq, Repr

/-- `strconv.Itoa` on a Go `int`. -/
def itoa (i : Int) : String := toString i

/-- `net.JoinHostPort`: bracket the host when it contains a colon or a
percent sign (`bytesIndexByte(host, ...) >= 0`, here a scan of the host's
characters), otherwise `host ++ ":" ++ port`. -/
def joinHostPort (host portStr : String) : String :=
  if host.data.contains ':' || host.data.contains '%' then
    "[" ++ host ++ "]:" ++ portStr
  else
    host ++ ":" ++ portStr

/-- The error kinds the watcher can return, per the spec's error taxonomy:
`alreadyStopped` is the `Next` early-return wrap, `cancelled` is the
context error observed at the select, `streamErr` wraps a watch-stream
error, `noPort` is `subsetToAddresses`'s "retrieved subset update contains
no port". -/
inductive WErr
  | alreadyStopped
  | cancelled
  | streamErr
  | noPort
  deriving DecidableEq, Repr

/-- The named-port scan of `subsetToAddresses`: `var port string` starts
empty and the loop takes the first matching name, so a miss leaves `""`. -/
def findNamedPort (name : String) : List port → String
  | [] => ""
  | p :: rest => if p.Name = name then itoa p.Port else findNamedPort name rest

/-- `subsetToAddresses` of watcher.go. -/
def subsetToAddresses (t : targetEntry) (sub : subset) : Except WErr (List String) :=
  match sub.Ports with
  | [] => .error .noPort
  | p0 :: _ =>
    let portStr :=
      match t.port with
      | .noTargetPort => itoa p0.Port
      | .named value => findNamedPort value sub.Ports
      | .numeric value => value
    .ok (sub.Addresses.map fun a => joinHostPort a.IP portStr)

/-- `naming.Update` operation kind: `naming.Add` / `naming.Delete`. -/
inductive Op
  | Add
  | Delete
  deriving DecidableEq, Repr

/-- `naming.Update` as used by watcher.go (the `Metadata` field carries no
information relevant to the address set and is omitted). -/
structure Update where
  Op : Op
  Addr : String
  deriving DecidableEq, Repr

/-- The two configurations of `watchResult` the event source actually
produces on `watchChange`: a non-nil `err`, or a decoded `ep` event. -/
inductive watchResult
  | failed
  | ep (e : event)
  deriving DecidableEq, Repr

/-- Outcome of the `select` in `next`: either `ctx.Done()` fires
(cancellation observed) or a `watchResult` is received from
`watchChange`. -/
inductive SelectOutcome
  | ctxDone
  | recv (r : watchResult)
  deriving DecidableEq, Repr

/-- The `watcher` struct: `cancelled` models `ctx.Err() != nil` of its
cancellable context, `lastUpdates` the key set of the
`map[string]struct{}`. -/
structure watcher where
  cancelled : Bool
  target : targetEntry
  lastUpdates : List String
  deriving DecidableEq, Repr

/-- Insertion of one key into a Go string-key set
(`updatedEndpoints[address] = struct{}{}`): a present key is not
duplicated. -/
def insertKey (m : List String) (k : String) : List String :=
  if k ∈ m then m else m ++ [k]

/-- The inner loop `for _, address := range updatedAddresses`. -/
def insertAddrs (m : List String) (addrs : List String) : List String :=
  addrs.foldl insertKey m

/-- The loop `for _, subset := range event.Object.Subsets` of `next`:
resolve each subset, abort on the first error, union the addresses. -/
def resolveSubsets (t : targetEntry) (acc : List String) :
    List subset → Except WErr (List String)
  | [] => .ok acc
  | s :: rest =>
    match subsetToAddresses t s with
    | .error e => .error e
    | .ok addrs => resolveSubsets t (insertAddrs acc addrs) rest

/-- The loop "Create updates to add new endpoints": one `Add` per key of
`updatedEndpoints` that is not in `lastUpdates`. -/
def addUpdates (lastU newU : List String) : List Update :=
  (newU.filter fun a => !(lastU.contains a)).map fun a => ⟨Op.Add, a⟩

/-- The loop "Create updates to delete old endpoints": one `Delete` per key
of `lastUpdates` that is not in `updatedEndpoints`. -/
def deleteUpdates (lastU newU : List String) : List Update :=
  (lastU.filter fun a => !(newU.contains a)).map fun a => ⟨Op.Delete, a⟩

/-- `watcher.next` (lower case) of watcher.go, with the select outcome made
an explicit argument: on `ctx.Done()` return `ctx.Err()`; on a stream
error wrap it; on an event resolve every subset, then diff against
`lastUpdates` and commit the new set. -/
def watcher.next (w : watcher) (sel : SelectOutcome) :
    Except WErr (List Update) × watcher :=
  match sel with
  | .ctxDone => (.error .cancelled, w)
  | .recv .failed => (.error .streamErr, w)
  | .recv (.ep ev) =>
    match resolveSubsets w.target [] ev.Object.Subsets with
    | .error e => (.error e, w)
    | .ok newSet =>
      (.ok (addUpdates w.lastUpdates newSet ++ deleteUpdates w.lastUpdates newSet),
        { w with lastUpdates := newSet })

/-- `watcher.Close`: `w.cancel()`. -/
def watcher.Close (w : watcher) : watcher := { w with cancelled := true }

/-- `watcher.Next` (capital) of watcher.go: if the context already has an
error, fail with the "already stopped" wrap; otherwise run `next` and, on
any error from it, call `Close` "just in case". -/
def watcher.Next (w : watcher) (sel : SelectOutcome) :
    Except WErr (List Update) × watcher :=
  if w.cancelled then
    (.error .alreadyStopped, w)
  else
    match w.next sel with
    | (.error e, w2) => (.error e, w2.Close)
    | ok => ok

/-- A sequence of `Next` calls, collecting each call's result. -/
def runNexts : watcher → List SelectOutcome → watcher × List (Except WErr (List Update))
  | w, [] => (w, [])
  | w, s :: rest =>
    let r := w.Next s
    let t := runNexts r.2 rest
    (t.1, r.1 :: t.2)

/-- `startNewWatcher`'s initial state: fresh context, empty `lastUpdates`. -/
def startNewWatcher (target : targetEntry) : watcher :=
  { cancelled := false, target := target, lastUpdates := [] }

/-- A concrete endpoints event around the given subsets, for instantiating
the theorems below on sample inputs. -/
def mkEvent (subs : List subset) : event :=
  ⟨⟨"Endpoints", "v1", ⟨"svc", "1"⟩, subs, "", "", 0⟩⟩

/-! ### Helper lemmas -/

/-- The only error `subsetToAddresses` produces is `noPort`, and only on an
empty port list. -/
theorem subsetToAddresses_error {t : targetEntry} {s : subset} {e : WErr}
    (h : subsetToAddresses t s = .error e) : e = .noPort ∧ s.Ports = [] := by
  unfold subsetToAddresses at h
  cases hp : s.Ports with
  | nil => simp [hp] at h; exact ⟨h.symm, rfl⟩
  | cons p0 rest => simp [hp] at h

/-- A subset with no ports always resolves to the `noPort` error. -/
theorem subsetToAddresses_noPorts {t : targetEntry} {s : subset}
    (h : s.Ports = []) : subsetToAddresses t s = .error .noPort := by
  unfold subsetToAddresses
  rw [h]

/-- If any subset of the list has no ports, the whole resolution loop
aborts with `noPort`, whatever the accumulator. -/
theorem resolveSubsets_noPort {t : targetEntry} {subs : List subset}
    {s : subset} (hmem : s ∈ subs) (hp : s.Ports = []) :
    ∀ acc, resolveSubsets t acc subs = .error .noPort := by
  induction subs with
  | nil => cases hmem
  | cons s0 rest ih =>
    intro acc
    unfold resolveSubsets
    cases hmem with
    | head => rw [subsetToAddresses_noPorts hp]
    | tail _ hmem' =>
      cases hr : subsetToAddresses t s0 with
      | error e =>
        obtain ⟨he, -⟩ := subsetToAddresses_error hr
        rw [he]
      | ok addrs => exact ih hmem' _

/-- Inserting a key preserves duplicate-freeness. -/
theorem insertKey_nodup {m : List String} (h : m.Nodup) (k : String) :
    (insertKey m k).Nodup := by
  unfold insertKey
  by_cases hk : k ∈ m
  · simpa [hk]
  · simp [hk, List.nodup_append, h]

/-- Inserting a batch of keys preserves duplicate-freeness. -/
theorem insertAddrs_nodup {m : List String} (h : m.Nodup)
    (addrs : List String) : (insertAddrs m addrs).Nodup := by
  induction addrs generalizing m with
  | nil => simpa [insertAddrs]
  | cons a rest ih => exact ih (insertKey_nodup h a)

/-- A successful subset resolution started from a duplicate-free
accumulator returns a duplicate-free address set. -/
theorem resolveSubsets_nodup {t : targetEntry} {subs : List subset}
    {acc newSet : List String} (hacc : acc.Nodup)
    (h : resolveSubsets t acc subs = .ok newSet) : newSet.Nodup := by
  induction subs generalizing acc with
  | nil =>
    unfold resolveSubsets at h
    cases h
    exact hacc
  | cons s0 rest ih =>
    unfold resolveSubsets at h
    cases hr : subsetToAddresses t s0 with
    | error e => rw [hr] at h; cases h
    | ok addrs =>
      rw [hr] at h
      exact ih (insertAddrs_nodup hacc addrs) h

/-- A stopped watcher's `Next` fails immediately with the already-stopped
wrap and leaves the state untouched. -/
theorem Next_stopped {w : watcher} (h : w.cancelled = true)
    (sel : SelectOutcome) : w.Next sel = (.error .alreadyStopped, w) := by
  unfold watcher.Next
  rw [h]
  rfl

/-- An erroring `next` (inner) call leaves the watcher record
completely unchanged. -/
theorem next_error_state {w : watcher} {sel : SelectOutcome} {e : WErr}
    (h : (w.next sel).1 = .error e) : (w.next sel).2 = w := by
  cases sel with
  | ctxDone => simp [watcher.next]
  | recv r =>
    cases r with
    | failed => simp [watcher.next]
    | ep ev =>
      cases hre : resolveSubsets w.target [] ev.Object.Subsets with
      | error e2 => simp [watcher.next, hre]
      | ok newSet => simp [watcher.next, hre] at h

/-- After any erroring `Next` call the watcher is stopped
(`Close` was called "just in case"). -/
theorem Next_error_stopped {w : watcher} {sel : SelectOutcome} {e : WErr}
    (h : (w.Next sel).1 = .error e) : (w.Next sel).2.cancelled = true := by
  cases hc : w.cancelled with
  | true => simp [watcher.Next, hc]
  | false =>
    rcases hr : w.next sel with ⟨res, w2⟩
    cases res with
    | error e2 => simp [watcher.Next, hc, hr, watcher.Close]
    | ok us => simp [watcher.Next, hc, hr] at h

/-- An erroring `Next` call never touches `lastUpdates`. -/
theorem Next_error_lastUpdates {w : watcher} {sel : SelectOutcome} {e : WErr}
    (h : (w.Next sel).1 = .error e) :
    (w.Next sel).2.lastUpdates = w.lastUpdates := by
  cases hc : w.cancelled with
  | true => simp [watcher.Next, hc]
  | false =>
    rcases hr : w.next sel with ⟨res, w2⟩
    cases res with
    | error e2 =>
      have hst : w2 = w := by
        have h2 := @next_error_state w sel e2
        rw [hr] at h2
        exact h2 rfl
      simp [watcher.Next, hc, hr, watcher.Close, hst]
    | ok us => simp [watcher.Next, hc, hr] at h

/-- On a stopped watcher every `Next` of a call sequence returns the
already-stopped error and the state never changes. -/
theorem runNexts_stopped {w : watcher} (h : w.cancelled = true) :
    ∀ sels : List SelectOutcome,
      runNexts w sels = (w, sels.map fun _ => .error .alreadyStopped) := by
  intro sels
  induction sels with
  | nil => rfl
  | cons s rest ih =>
    unfold runNexts
    rw [Next_stopped h s]
    simp [ih]

/-- Inversion of a successful `Next` on an event: the watcher was active,
every subset resolved, the batch is adds-then-deletes against
`lastUpdates`, and the new set is committed. -/
theorem Next_ok_inv {w : watcher} {ev : event} {us : List Update}
    {w2 : watcher} (h : w.Next (.recv (.ep ev)) = (.ok us, w2)) :
    w.cancelled = false ∧
      ∃ newSet, resolveSubsets w.target [] ev.Object.Subsets = .ok newSet ∧
        us = addUpdates w.lastUpdates newSet ++ deleteUpdates w.lastUpdates newSet ∧
        w2 = { w with lastUpdates := newSet } := by
  cases hc : w.cancelled with
  | true => simp [watcher.Next, hc] at h
  | false =>
    refine ⟨rfl, ?_⟩
    cases hre : resolveSubsets w.target [] ev.Object.Subsets with
    | error e => simp [watcher.Next, watcher.next, hc, hre] at h
    | ok newSet =>
      refine ⟨newSet, rfl, ?_⟩
      simp [watcher.Next, watcher.next, hc, hre] at h
      exact ⟨h.1.symm, h.2.symm⟩

/-- Counting a tagged update among same-tagged updates counts the
addresses. -/
theorem count_map_mk_same (l : List String) (op : Op) (a : String) :
    ((l.map fun x => (⟨op, x⟩ : Update)).count ⟨op, a⟩) = l.count a := by
  induction l with
  | nil => rfl
  | cons x rest ih =>
    by_cases hx : x = a
    · simp [List.count_cons, hx, ih]
    · simp [List.count_cons, hx, ih, Update.mk.injEq]

/-- A differently-tagged update never occurs among tagged updates. -/
theorem count_map_mk_ne (l : List String) {op op2 : Op} (hop : op ≠ op2)
    (a : String) : ((l.map fun x => (⟨op, x⟩ : Update)).count ⟨op2, a⟩) = 0 := by
  induction l with
  | nil => rfl
  | cons x rest ih => simp [List.count_cons, ih, Update.mk.injEq, hop]

/-- Counting in a duplicate-free list filtered by non-membership in
another list: one when in the first and not the second, zero otherwise. -/
theorem count_filter_not_mem {l : List String} (m : List String)
    (h : l.Nodup) (a : String) :
    ((l.filter fun x => !(m.contains x)).count a) =
      if a ∈ l ∧ a ∉ m then 1 else 0 := by
  by_cases hmem : a ∈ l ∧ a ∉ m
  · rw [if_pos hmem]
    refine List.count_eq_one_of_mem (h.filter _) (List.mem_filter.mpr ⟨hmem.1, ?_⟩)
    simp [List.elem_eq_mem, hmem.2]
  · rw [if_neg hmem]
    refine List.count_eq_zero_of_not_mem fun hcontra => ?_
    obtain ⟨ha, hpass⟩ := List.mem_filter.mp hcontra
    refine hmem ⟨ha, ?_⟩
    simpa [List.elem_eq_mem] using hpass

/-- How many `Add` deltas for a given address a diff batch holds: one
exactly when the address is newly resolved and was not known. -/
theorem count_add_in_batch {newU : List String} (lastU : List String)
    (hnew : newU.Nodup) (a : String) :
    ((addUpdates lastU newU ++ deleteUpdates lastU newU).count ⟨Op.Add, a⟩) =
      if a ∈ newU ∧ a ∉ lastU then 1 else 0 := by
  rw [List.count_append]
  unfold addUpdates deleteUpdates
  rw [count_map_mk_same, count_map_mk_ne _ (by simp) a,
    count_filter_not_mem lastU hnew a]
  simp

/-- How many `Delete` deltas for a given address a diff batch holds: one
exactly when the address was known and is no longer resolved. -/
theorem count_delete_in_batch {lastU : List String} (newU : List String)
    (hlast : lastU.Nodup) (a : String) :
    ((addUpdates lastU newU ++ deleteUpdates lastU newU).count ⟨Op.Delete, a⟩) =
      if a ∈ lastU ∧ a ∉ newU then 1 else 0 := by
  rw [List.count_append]
  unfold addUpdates deleteUpdates
  rw [count_map_mk_same, count_map_mk_ne _ (by simp) a,
    count_filter_not_mem newU hlast a]
  simp

/-- Diffing against an empty new set yields no adds. -/
theorem addUpdates_nil (l : List String) : addUpdates l [] = [] := rfl

/-- Diffing against an empty new set deletes every known address. -/
theorem deleteUpdates_nil (l : List String) :
    deleteUpdates l [] = l.map fun a => ⟨Op.Delete, a⟩ := by
  unfold deleteUpdates
  congr 1
  refine List.filter_eq_self.mpr fun a ha => ?_
  simp [List.elem_eq_mem]

/-- If no port in the list carries the sought name, the named-port scan
returns the empty string it started from. -/
theorem findNamedPort_miss {v : String} {ports : List port}
    (h : ∀ p ∈ ports, p.Name ≠ v) : findNamedPort v ports = "" := by
  induction ports with
  | nil => rfl
  | cons p rest ih =>
    unfold findNamedPort
    rw [if_neg (h p (by simp))]
    exact ih fun q hq => h q (by simp [hq])

/-- Projecting the address back out of a tagged update batch recovers
the address list. -/
theorem map_addr_map_mk (l : List String) (op : Op) :
    ((l.map fun a => (⟨op, a⟩ : Update)).map Update.Addr) = l := by
  induction l with
  | nil => rfl
  | cons x rest ih => simp [ih]

/-- Diffing a set against itself yields no adds. -/
theorem addUpdates_self (l : List String) : addUpdates l l = [] := by
  unfold addUpdates
  rw [List.filter_eq_nil_iff.mpr]
  · rfl
  · intro a ha
    simp [List.elem_eq_mem, ha]

/-- Diffing a set against itself yields no deletes. -/
theorem deleteUpdates_self (l : List String) : deleteUpdates l l = [] := by
  unfold deleteUpdates
  rw [List.filter_eq_nil_iff.mpr]
  · rfl
  · intro a ha
    simp [List.elem_eq_mem, ha]

/-- `Next` preserves the duplicate-freeness invariant of `lastUpdates`:
the Go map cannot hold a key twice. -/
theorem Next_nodup {w : watcher} (h : w.lastUpdates.Nodup)
    (sel : SelectOutcome) : ((w.Next sel).2).lastUpdates.Nodup := by
  cases hres : (w.Next sel).1 with
  | error e => rw [Next_error_lastUpdates hres]; exact h
  | ok us =>
    cases hc : w.cancelled with
    | true => rw [Next_stopped hc sel] at hres; cases hres
    | false =>
      cases sel with
      | ctxDone => simp [watcher.Next, watcher.next, hc] at hres
      | recv r =>
        cases r with
        | failed => simp [watcher.Next, watcher.next, hc] at hres
        | ep ev =>
          rcases hr : w.Next (.recv (.ep ev)) with ⟨res, w2⟩
          rw [hr] at hres
          simp only at hres
          rw [hres] at hr
          obtain ⟨-, newSet, hresolve, -, hw2⟩ := Next_ok_inv hr
          simp only [hw2]
          exact resolveSubsets_nodup List.nodup_nil hresolve

/-! ### Claims -/

/-- C9: for every subset with a non-empty port list, when the watcher's
TargetPort is unset, Address Resolution uses the numeric value of the
first port entry of that subset (in received order) and emits
`joinHostPort(ip, resolvedPort)` for each address in the subset. -/
theorem first_port_used (t : targetEntry) (sub : subset) (p0 : port)
    (rest : List port) (h1 : t.port = .noTargetPort)
    (h2 : sub.Ports = p0 :: rest) :
    subsetToAddresses t sub =
      .ok (sub.Addresses.map fun a => joinHostPort a.IP (itoa p0.Port)) := by
  simp [subsetToAddresses, h1, h2]

/-- C9 witness: unset TargetPort on a two-port subset resolves every
address against the first port, 80. -/
theorem first_port_used_witness :
    subsetToAddresses ⟨.noTargetPort⟩ ⟨[⟨"1.2.3.4"⟩], [⟨"http", 80⟩, ⟨"x", 90⟩]⟩ =
      .ok (([⟨"1.2.3.4"⟩] : List address).map fun a =>
        joinHostPort a.IP (itoa (80 : Int))) :=
  first_port_used ⟨.noTargetPort⟩ ⟨[⟨"1.2.3.4"⟩], [⟨"http", 80⟩, ⟨"x", 90⟩]⟩
    ⟨"http", 80⟩ [⟨"x", 90⟩] rfl rfl

/-- C1 counterexample: with TargetPort named "grpc" and subset ports
[("http",80)], `subsetToAddresses` does not return an empty address set:
the named-port scan leaves the port string empty and the address loop
still emits `joinHostPort(ip, "")`, so the subset yields "1.2.3.4:". -/
theorem namedPortMiss_counterexample :
    subsetToAddresses ⟨.named "grpc"⟩ ⟨[⟨"1.2.3.4"⟩], [⟨"http", 80⟩]⟩ =
        .ok ["1.2.3.4:"] ∧
      subsetToAddresses ⟨.named "grpc"⟩ ⟨[⟨"1.2.3.4"⟩], [⟨"http", 80⟩]⟩ ≠
        .ok [] := by
  refine ⟨rfl, fun hcontra => ?_⟩
  rw [show subsetToAddresses ⟨.named "grpc"⟩ ⟨[⟨"1.2.3.4"⟩], [⟨"http", 80⟩]⟩ =
      .ok ["1.2.3.4:"] from rfl] at hcontra
  simp at hcontra

/-- C1 amended: for every subset with a non-empty port list, when the
watcher's TargetPort is named and no port entry in the subset has a
matching name, `subsetToAddresses` does not fail and returns
`joinHostPort(ip, "")` — the host with an empty port string — for each
address in the subset (an empty set only when the subset has no
addresses). -/
theorem namedPortMiss_amended (t : targetEntry) (sub : subset) (v : String)
    (h1 : t.port = .named v) (h2 : sub.Ports ≠ [])
    (h3 : ∀ p ∈ sub.Ports, p.Name ≠ v) :
    subsetToAddresses t sub =
      .ok (sub.Addresses.map fun a => joinHostPort a.IP "") := by
  cases hp : sub.Ports with
  | nil => exact absurd hp h2
  | cons p0 rest =>
    have hf : findNamedPort v sub.Ports = "" := findNamedPort_miss h3
    rw [hp] at hf
    simp [subsetToAddresses, h1, hp, hf]

/-- C1 amended witness: the named-port miss of the counterexample input
yields exactly the one empty-port address. -/
theorem namedPortMiss_amended_witness :
    subsetToAddresses ⟨.named "grpc"⟩ ⟨[⟨"1.2.3.4"⟩], [⟨"http", 80⟩]⟩ =
      .ok (([⟨"1.2.3.4"⟩] : List address).map fun a => joinHostPort a.IP "") :=
  namedPortMiss_amended ⟨.named "grpc"⟩ ⟨[⟨"1.2.3.4"⟩], [⟨"http", 80⟩]⟩ "grpc"
    rfl (by decide) (by decide)

/-- C6 counterexample: after `Close`, a subsequent `Next` call fails with
the already-stopped wrap of step 1, not with the step-3 `cancelled`
error: `Next` checks `ctx.Err() != nil` before ever reaching the
select. -/
theorem closeNext_counterexample :
    ((startNewWatcher ⟨.noTargetPort⟩).Close.Next
        (.recv (.ep (mkEvent [])))).1 = .error .alreadyStopped ∧
      ((startNewWatcher ⟨.noTargetPort⟩).Close.Next
        (.recv (.ep (mkEvent [])))).1 ≠ .error .cancelled := by
  refine ⟨rfl, fun hcontra => ?_⟩
  rw [show ((startNewWatcher ⟨.noTargetPort⟩).Close.Next
      (.recv (.ep (mkEvent [])))).1 = .error .alreadyStopped from rfl] at hcontra
  simp at hcontra

/-- C6 amended: after `close()` has been called, any subsequent `Next`
call fails with `AlreadyStoppedError` (wrapping the cancellation cause),
with the watcher in the Stopped state and untouched; the step-3
`CancelledError` is what an already-running `next` returns when it
observes cancellation at its select. -/
theorem closeNext_amended (w : watcher) (sel : SelectOutcome) :
    w.Close.Next sel = (.error .alreadyStopped, w.Close) ∧
      (w.next .ctxDone).1 = .error .cancelled :=
  ⟨Next_stopped rfl sel, rfl⟩

/-- C4: every erroring `Next` call — cancellation, stream error or
`noPort` during subset resolution — leaves `lastUpdates` exactly as it
was: the event is not partially applied. -/
theorem error_no_partial_apply (w : watcher) (sel : SelectOutcome) (e : WErr)
    (h : (w.Next sel).1 = .error e) :
    (w.Next sel).2.lastUpdates = w.lastUpdates :=
  Next_error_lastUpdates h

/-- C4 witness: a stream error on a watcher that knows "a:1" leaves
"a:1" in place. -/
theorem error_no_partial_apply_witness :
    ((⟨false, ⟨.noTargetPort⟩, ["a:1"]⟩ : watcher).Next
        (.recv .failed)).2.lastUpdates = ["a:1"] :=
  error_no_partial_apply ⟨false, ⟨.noTargetPort⟩, ["a:1"]⟩ (.recv .failed)
    .streamErr rfl

/-- C5: once some `Next` call returns an error, every subsequent `Next`
call returns the already-stopped error and the watcher state never
changes again. -/
theorem terminal_monotonic (w : watcher) (sel : SelectOutcome) (e : WErr)
    (h : (w.Next sel).1 = .error e) (sels : List SelectOutcome) :
    runNexts (w.Next sel).2 sels =
      ((w.Next sel).2, sels.map fun _ => .error .alreadyStopped) :=
  runNexts_stopped (Next_error_stopped h) sels

/-- C5 witness: after a stream error, two further `Next` calls both
return the already-stopped error and leave the state fixed. -/
theorem terminal_monotonic_witness :
    runNexts ((startNewWatcher ⟨.noTargetPort⟩).Next (.recv .failed)).2
        [.ctxDone, .recv .failed] =
      (((startNewWatcher ⟨.noTargetPort⟩).Next (.recv .failed)).2,
        [.error .alreadyStopped, .error .alreadyStopped]) :=
  terminal_monotonic (startNewWatcher ⟨.noTargetPort⟩) (.recv .failed)
    .streamErr rfl [.ctxDone, .recv .failed]

/-- C2: on an active watcher, an event containing a subset with an empty
port list makes that `Next` call fail with the no-port error and stop the
watcher, and every subsequent `Next` call fails with the already-stopped
error without further state change. -/
theorem noPort_terminal (w : watcher) (ev : event) (sub : subset)
    (h1 : w.cancelled = false) (h2 : sub ∈ ev.Object.Subsets)
    (h3 : sub.Ports = []) :
    w.Next (.recv (.ep ev)) = (.error .noPort, w.Close) ∧
      ∀ sels, runNexts w.Close sels =
        (w.Close, sels.map fun _ => .error .alreadyStopped) := by
  have hres := @resolveSubsets_noPort w.target ev.Object.Subsets sub h2 h3 ([] : List String)
  exact ⟨by simp [watcher.Next, watcher.next, h1, hres],
    fun sels => runNexts_stopped rfl sels⟩

/-- C2 witness: a fresh watcher fed a subset with no ports fails with the
no-port error, and two further `Next` calls both fail already-stopped. -/
theorem noPort_terminal_witness :
    (startNewWatcher ⟨.noTargetPort⟩).Next
        (.recv (.ep (mkEvent [⟨[⟨"a"⟩], []⟩]))) =
      (.error .noPort, (startNewWatcher ⟨.noTargetPort⟩).Close) ∧
      runNexts (startNewWatcher ⟨.noTargetPort⟩).Close [.ctxDone, .recv .failed] =
        ((startNewWatcher ⟨.noTargetPort⟩).Close,
          [.error .alreadyStopped, .error .alreadyStopped]) := by
  have h := noPort_terminal (startNewWatcher ⟨.noTargetPort⟩)
    (mkEvent [⟨[⟨"a"⟩], []⟩]) ⟨[⟨"a"⟩], []⟩ rfl (by simp [mkEvent]) rfl
  exact ⟨h.1, h.2 [.ctxDone, .recv .failed]⟩

/-- C7: if a `Next` call on an active watcher succeeds for some event,
delivering the identical event again succeeds with an empty delta batch
and an unchanged watcher. -/
theorem idempotent_noop (w : watcher) (ev : event) (us : List Update)
    (w2 : watcher) (h : w.Next (.recv (.ep ev)) = (.ok us, w2)) :
    w2.Next (.recv (.ep ev)) = (.ok [], w2) := by
  obtain ⟨hc, newSet, hres, hus, hw2⟩ := Next_ok_inv h
  subst hw2
  simp [watcher.Next, watcher.next, hc, hres, addUpdates_self,
    deleteUpdates_self]

/-- C7 witness: the second delivery of the same one-subset event to a
watcher that already knows "a:1" produces no deltas. -/
theorem idempotent_noop_witness :
    (⟨false, ⟨.noTargetPort⟩, ["a:1"]⟩ : watcher).Next
        (.recv (.ep (mkEvent [⟨[⟨"a"⟩], [⟨"p", 1⟩]⟩]))) =
      (.ok [], ⟨false, ⟨.noTargetPort⟩, ["a:1"]⟩) :=
  idempotent_noop (startNewWatcher ⟨.noTargetPort⟩)
    (mkEvent [⟨[⟨"a"⟩], [⟨"p", 1⟩]⟩]) [⟨Op.Add, "a:1"⟩]
    ⟨false, ⟨.noTargetPort⟩, ["a:1"]⟩ rfl

/-- C10: on an active watcher with a duplicate-free known set, an event
whose subset list is empty is processed successfully: the batch holds
exactly one `Delete` per known address and no `Add`, and the known set
becomes empty. -/
theorem empty_event_removes_all (w : watcher) (ev : event)
    (h1 : w.cancelled = false) (h2 : w.lastUpdates.Nodup)
    (h3 : ev.Object.Subsets = []) :
    w.Next (.recv (.ep ev)) =
        (.ok (w.lastUpdates.map fun a => ⟨Op.Delete, a⟩),
          { w with lastUpdates := [] }) ∧
      ∀ a, ((w.lastUpdates.map fun x => (⟨Op.Delete, x⟩ : Update)).count
          ⟨Op.Delete, a⟩) = if a ∈ w.lastUpdates then 1 else 0 := by
  have hres : resolveSubsets w.target [] ev.Object.Subsets = .ok [] := by
    rw [h3]; rfl
  constructor
  · simp [watcher.Next, watcher.next, h1, hres, addUpdates_nil,
      deleteUpdates_nil]
  · intro a
    rw [count_map_mk_same]
    by_cases hmem : a ∈ w.lastUpdates
    · rw [if_pos hmem]
      exact List.count_eq_one_of_mem h2 hmem
    · rw [if_neg hmem]
      exact List.count_eq_zero_of_not_mem hmem

/-- C10 witness: an empty-subsets event on a watcher knowing "a:1"
returns exactly one Delete of "a:1" and empties the known set. -/
theorem empty_event_removes_all_witness :
    (⟨false, ⟨.noTargetPort⟩, ["a:1"]⟩ : watcher).Next
        (.recv (.ep (mkEvent []))) =
      (.ok [⟨Op.Delete, "a:1"⟩], ⟨false, ⟨.noTargetPort⟩, []⟩) ∧
    ([⟨Op.Delete, "a:1"⟩] : List Update).count ⟨Op.Delete, "a:1"⟩ =
      if "a:1" ∈ ["a:1"] then 1 else 0 := by
  have h := empty_event_removes_all ⟨false, ⟨.noTargetPort⟩, ["a:1"]⟩
    (mkEvent []) rfl (by simp) rfl
  exact ⟨h.1, h.2 "a:1"⟩

/-- C3: a successful `Next` on a watcher whose known set is
duplicate-free returns exactly one `Add` per address newly resolved
(in the committed set, absent from the old one), exactly one `Delete`
per address dropped, and no delta for an address present in both. -/
theorem diff_correct (w : watcher) (ev : event) (us : List Update)
    (w2 : watcher) (h1 : w.lastUpdates.Nodup)
    (h2 : w.Next (.recv (.ep ev)) = (.ok us, w2)) :
    (∀ a, us.count ⟨Op.Add, a⟩ =
        if a ∈ w2.lastUpdates ∧ a ∉ w.lastUpdates then 1 else 0) ∧
      ∀ a, us.count ⟨Op.Delete, a⟩ =
        if a ∈ w.lastUpdates ∧ a ∉ w2.lastUpdates then 1 else 0 := by
  obtain ⟨hc, newSet, hres, hus, hw2⟩ := Next_ok_inv h2
  have hnew : newSet.Nodup := resolveSubsets_nodup List.nodup_nil hres
  subst hus hw2
  exact ⟨fun a => by rw [count_add_in_batch w.lastUpdates hnew a],
    fun a => by rw [count_delete_in_batch newSet h1 a]⟩

/-- C3 witness: from known set {a:1, b:1} and an event resolving to
{b:1, c:1}, the batch holds exactly one Add for c:1. -/
theorem diff_correct_witness :
    ([⟨Op.Add, "c:1"⟩, ⟨Op.Delete, "a:1"⟩] : List Update).count ⟨Op.Add, "c:1"⟩ =
      if "c:1" ∈ ["b:1", "c:1"] ∧ "c:1" ∉ ["a:1", "b:1"] then 1 else 0 := by
  have h := diff_correct ⟨false, ⟨.noTargetPort⟩, ["a:1", "b:1"]⟩
    (mkEvent [⟨[⟨"b"⟩, ⟨"c"⟩], [⟨"p", 1⟩]⟩])
    [⟨Op.Add, "c:1"⟩, ⟨Op.Delete, "a:1"⟩]
    ⟨false, ⟨.noTargetPort⟩, ["b:1", "c:1"]⟩ (by simp) rfl
  exact h.1 "c:1"

/-- C8: a successful `Next` commits a duplicate-free union of the
per-subset addresses, its batch carries no duplicate addresses, and a
given address gains at most one `Add` however many subsets produced
it. -/
theorem no_duplicates (w : watcher) (ev : event) (us : List Update)
    (w2 : watcher) (h1 : w.lastUpdates.Nodup)
    (h2 : w.Next (.recv (.ep ev)) = (.ok us, w2)) :
    w2.lastUpdates.Nodup ∧ (us.map Update.Addr).Nodup ∧
      ∀ a, us.count ⟨Op.Add, a⟩ ≤ 1 := by
  obtain ⟨hc, newSet, hres, hus, hw2⟩ := Next_ok_inv h2
  have hnew : newSet.Nodup := resolveSubsets_nodup List.nodup_nil hres
  subst hus hw2
  refine ⟨hnew, ?_, fun a => ?_⟩
  · unfold addUpdates deleteUpdates
    rw [List.map_append, map_addr_map_mk, map_addr_map_mk, List.nodup_append]
    refine ⟨hnew.filter _, h1.filter _, fun a ha hb => ?_⟩
    obtain ⟨hanew, -⟩ := List.mem_filter.mp ha
    obtain ⟨-, hpass⟩ := List.mem_filter.mp hb
    simp [List.elem_eq_mem, hanew] at hpass
  · rw [count_add_in_batch w.lastUpdates hnew a]
    split <;> omega

/-- C8 witness: two subsets both resolving to "x:1" yield a single Add
of "x:1", a duplicate-free known set and batch. -/
theorem no_duplicates_witness :
    (["x:1"] : List String).Nodup ∧
      (([⟨Op.Add, "x:1"⟩] : List Update).map Update.Addr).Nodup ∧
      ([⟨Op.Add, "x:1"⟩] : List Update).count ⟨Op.Add, "x:1"⟩ ≤ 1 := by
  have h := no_duplicates (startNewWatcher ⟨.noTargetPort⟩)
    (mkEvent [⟨[⟨"x"⟩], [⟨"p", 1⟩]⟩, ⟨[⟨"x"⟩], [⟨"q", 1⟩]⟩])
    [⟨Op.Add, "x:1"⟩] ⟨false, ⟨.noTargetPort⟩, ["x:1"]⟩ List.nodup_nil rfl
  exact ⟨h.1, h.2.1, h.2.2 "x:1"⟩

end K8sResolver
